import Mathlib

/-!
Verification of the EtherScope repository against its specification.

Shallow embedding of the relevant parts of the source:
  * `services/analysis_service.py`   — activity classification and wallet scoring
  * `services/cache_service.py`      — TTL cache with creation-time eviction
  * `services/blockchain_service.py` — address validation, retry loop,
                                       rate limiting, numeric formatting
  * `bot/handlers.py`                — message chunking

Conventions of the embedding:
  * Python `int` values that the claims restrict to non-negative counts are
    modelled as `Nat`; other integers as `Int`.
  * Instants produced by `time.time()` (Python floats) are modelled as `Int`
    (cache) or `Rat` (rate limiter); only ordered arithmetic on them is used.
  * Python strings are modelled as `List Char` where the code manipulates
    them character-wise, and as `String` where they are opaque values.
-/

namespace EtherScope

/-! ## models/wallet.py and models/transaction.py -/

/-- Model of `ActivityLevel` enum from `models/wallet.py`. -/
inductive ActivityLevel where
  | dormant
  | low
  | moderate
  | active
  | highly_active
deriving DecidableEq, Repr

/-- Model of `TransactionType` enum from `models/transaction.py`. -/
inductive TransactionType where
  | send
  | receive
  | contract_interaction
  | token_transfer
  | nft_transfer
deriving DecidableEq, Repr

/-- Model of `Transaction` model from `models/transaction.py`.  `timestamp` (a
`datetime`) is modelled as an integer instant. -/
structure Transaction where
  hash : String
  from_address : String
  to_address : Option String
  value : String
  value_display : String
  gas_price : String
  gas_used : Option String
  timestamp : Int
  block_number : Int
  is_error : Bool
  type : TransactionType
  method_id : Option String
deriving DecidableEq, Repr

/-- Model of `TransactionSummary` model from `models/transaction.py`.  The count
fields are Python `int`s; the claims under verification restrict them to
non-negative values, so they are modelled as `Nat`. -/
structure TransactionSummary where
  total_transactions : Nat
  last_transactions : List Transaction
  unique_interacted_addresses : Nat
  contract_interactions : Nat
  failed_transactions : Nat
deriving DecidableEq, Repr

/-! ## services/analysis_service.py -/

/-- Model of `AnalysisService.detect_activity_level` (`analysis_service.py:32-57`). -/
def detect_activity_level (transactions : List Transaction) : ActivityLevel :=
  if transactions.isEmpty then .dormant
  else
    let total_txs := transactions.length
    if total_txs ≥ 1000 then .highly_active
    else if total_txs ≥ 100 then .active
    else if total_txs ≥ 20 then .moderate
    else if total_txs ≥ 5 then .low
    else .dormant

/-- The `activity_scores` dictionary inside
`AnalysisService.calculate_wallet_score` (`analysis_service.py:167-173`);
the `.get(activity_level, 0)` default is unreachable because every enum
member is a key. -/
def activity_scores : ActivityLevel → Nat
  | .dormant => 0
  | .low => 10
  | .moderate => 20
  | .active => 30
  | .highly_active => 40

/-- Model of `AnalysisService.calculate_wallet_score` (`analysis_service.py:137-204`).

The source computes `contract_interactions / max(total_transactions, 1)` in
binary floating point and compares it with the literals `0.5`, `0.3`, `0.1`;
the comparisons are modelled as the exact rational comparisons
`2*ci ≥ m`, `10*ci ≥ 3*m`, `10*ci ≥ m`, which agree with the float
comparisons except at astronomically large counts (quotients within one
double ulp of a threshold), and which never affect the 0–100 range. -/
def calculate_wallet_score (activity_level : ActivityLevel)
    (transaction_summary : TransactionSummary)
    (defi_user : Bool) (nft_trader : Bool) (contract_deployer : Bool) : Nat :=
  let score := activity_scores activity_level
  let ci := transaction_summary.contract_interactions
  let m := max transaction_summary.total_transactions 1
  let score := score +
    (if 2 * ci ≥ m then 30
     else if 10 * ci ≥ 3 * m then 20
     else if 10 * ci ≥ m then 10
     else 5)
  let token_diversity_score := min (transaction_summary.unique_interacted_addresses / 10) 15
  let score := score + token_diversity_score
  let advanced_activities :=
    (if defi_user then 1 else 0) + (if nft_trader then 1 else 0) +
      (if contract_deployer then 1 else 0)
  let advanced_score := advanced_activities * 5
  let score := score + min advanced_score 15
  min score 100

/-! ## services/cache_service.py -/

variable {V : Type}

/-- Model of `CacheEntry` from `cache_service.py:13-26`.  `value` is the cached
payload (`Any` in the source, a type parameter here); `created_at` is the
`time.time()` instant at construction, modelled as an integer instant. -/
structure CacheEntry (V : Type) where
  value : V
  ttl : Int
  created_at : Int
deriving DecidableEq, Repr

/-- Model of `CacheEntry.is_expired` (`cache_service.py:28-36`), with the
`time.time()` call modelled as the explicit instant `now`. -/
def CacheEntry.is_expired (e : CacheEntry V) (now : Int) : Bool :=
  now - e.created_at > e.ttl

/-- Python `dict` lookup `d[k]` / membership, on the insertion-ordered
association list modelling `self._cache`: the first binding of `k`. -/
def dictGet : List (String × CacheEntry V) → String → Option (CacheEntry V)
  | [], _ => none
  | p :: rest, k => if p.1 = k then some p.2 else dictGet rest k

/-- Python `dict` assignment `d[k] = e`: replaces the binding of `k` in
place, keeping its position, or appends a new binding at the end. -/
def dictSet : List (String × CacheEntry V) → String → CacheEntry V →
    List (String × CacheEntry V)
  | [], k, e => [(k, e)]
  | p :: rest, k, e => if p.1 = k then (k, e) :: rest else p :: dictSet rest k e

/-- Python `del d[k]`: removes the binding of `k` (the first one; a
well-formed dict has unique keys). -/
def dictDelete : List (String × CacheEntry V) → String → List (String × CacheEntry V)
  | [], _ => []
  | p :: rest, k => if p.1 = k then rest else p :: dictDelete rest k

/-- The fold step of Python `min(..., key=lambda k: created_at)`: keeps the
current best unless the next binding has a strictly smaller creation time,
so the earliest minimum in iteration order wins, as Python `min` does. -/
def minByCreated (best q : String × CacheEntry V) : String × CacheEntry V :=
  if q.2.created_at < best.2.created_at then q else best

/-- Model of `min(self._cache.keys(), key=lambda k: self._cache[k].created_at)`
(`cache_service.py:108-111`), returned as the full binding.  `none` on an
empty dict, where Python `min` raises `ValueError`. -/
def oldestEntry : List (String × CacheEntry V) → Option (String × CacheEntry V)
  | [] => none
  | p :: rest => some (rest.foldl minByCreated p)

/-- Model of `CacheService` state (`cache_service.py:39-59`). -/
structure CacheService (V : Type) where
  enabled : Bool
  ttl : Int
  max_size : Nat
  _cache : List (String × CacheEntry V)
deriving DecidableEq, Repr

/-- Model of `CacheService.get` (`cache_service.py:61-86`) at instant `now`; returns
the result together with the post-state. -/
def CacheService.get (s : CacheService V) (key : String) (now : Int) :
    Option V × CacheService V :=
  if !s.enabled then (none, s)
  else
    match dictGet s._cache key with
    | none => (none, s)
    | some entry =>
      if entry.is_expired now then (none, { s with _cache := dictDelete s._cache key })
      else (some entry.value, s)

/-- Model of `ttl = ttl or self.ttl` (`cache_service.py:103`): Python `or` falls back
to the default both when the argument is `None` and when it is the falsy
value `0`. -/
def effective_ttl (default : Int) : Option Int → Int
  | none => default
  | some t => if t = 0 then default else t

/-- Model of `CacheService.set` (`cache_service.py:88-116`) at instant `now`.  When
the dict has reached `max_size` but is empty (only possible with
`max_size = 0`), Python's `min` over an empty sequence raises `ValueError`;
that branch is modelled as skipping the eviction and is unreachable from a
service with `max_size ≥ 1`. -/
def CacheService.set (s : CacheService V) (key : String) (value : V)
    (ttl? : Option Int) (now : Int) : CacheService V :=
  if !s.enabled then s
  else
    let ttl := effective_ttl s.ttl ttl?
    let cache :=
      if s._cache.length ≥ s.max_size then
        match oldestEntry s._cache with
        | some oldest => dictDelete s._cache oldest.1
        | none => s._cache
      else s._cache
    { s with _cache := dictSet cache key ⟨value, ttl, now⟩ }

/-- Model of `CacheService.delete` (`cache_service.py:118-127`); deleting an absent
key leaves the dict unchanged, as the `if key in self._cache` guard does. -/
def CacheService.delete (s : CacheService V) (key : String) : CacheService V :=
  { s with _cache := dictDelete s._cache key }

/-- Model of `CacheService.clear` (`cache_service.py:129-132`). -/
def CacheService.clear (s : CacheService V) : CacheService V :=
  { s with _cache := [] }

/-- Model of `CacheService.cleanup_expired` (`cache_service.py:134-151`) at instant
`now`: collects the keys of the expired entries, then deletes each in turn;
returns the number removed together with the post-state. -/
def CacheService.cleanup_expired (s : CacheService V) (now : Int) :
    Nat × CacheService V :=
  let expired_keys := (s._cache.filter (fun p => p.2.is_expired now)).map (fun p => p.1)
  (expired_keys.length, { s with _cache := expired_keys.foldl dictDelete s._cache })

/-- The dictionary returned by `CacheService.get_stats`. -/
structure CacheStats where
  enabled : Bool
  size : Nat
  max_size : Nat
  ttl : Int
  utilization : Rat
deriving DecidableEq, Repr

/-- Model of `CacheService.get_stats` (`cache_service.py:153-168`) at instant `now`:
first runs `cleanup_expired`, then reports on the cleaned state.
`utilization` is the Python float quotient `len/max_size`, modelled as the
exact rational (with `max_size = 0`, where Python raises, it yields 0). -/
def CacheService.get_stats (s : CacheService V) (now : Int) :
    CacheStats × CacheService V :=
  let s2 := (s.cleanup_expired now).2
  ({ enabled := s2.enabled
     size := s2._cache.length
     max_size := s2.max_size
     ttl := s2.ttl
     utilization := (s2._cache.length : Rat) / (s2.max_size : Rat) }, s2)

/-- One client operation on the cache service, carrying the `time.time()`
instant observed inside the call where the source reads the clock. -/
inductive CacheOp (V : Type) where
  | get (key : String) (now : Int)
  | set (key : String) (value : V) (ttl? : Option Int) (now : Int)
  | delete (key : String)
  | clear
  | cleanup (now : Int)
  | stats (now : Int)

/-- The state transition of one cache operation. -/
def CacheService.applyOp (s : CacheService V) : CacheOp V → CacheService V
  | .get k now => (s.get k now).2
  | .set k v ttl? now => s.set k v ttl? now
  | .delete k => s.delete k
  | .clear => s.clear
  | .cleanup now => (s.cleanup_expired now).2
  | .stats now => (s.get_stats now).2

/-- Run a sequence of cache operations from a starting state. -/
def CacheService.runOps (s : CacheService V) (ops : List (CacheOp V)) :
    CacheService V :=
  ops.foldl CacheService.applyOp s

/-- A concrete cache state for witnesses: an enabled two-entry cache at
capacity, entry "a" created before entry "b". -/
def wCacheState : CacheService Nat :=
  { enabled := true
    ttl := 300
    max_size := 2
    _cache := [("a", ⟨1, 300, 0⟩), ("b", ⟨2, 300, 5⟩)] }

/-! ## services/blockchain_service.py — address validation -/

/-- The whitespace class of Python `str.strip()`, restricted to ASCII (the
source also strips other Unicode whitespace, which cannot make an address
valid or invalid beyond what the pattern check already rejects). -/
def pyIsSpace (c : Char) : Bool :=
  c = ' ' || c = '\t' || c = '\n' || c = '\r' || c = '\x0b' || c = '\x0c'

/-- Python `str.strip()`: drop whitespace from both ends. -/
def pyStrip (s : List Char) : List Char :=
  ((s.dropWhile pyIsSpace).reverse.dropWhile pyIsSpace).reverse

/-- Python `str.lower()` on one character; only the ASCII range matters for
the address pattern, since no non-ASCII character lower-cases into
`[0-9a-f]` or into `0`/`x`. -/
def pyLowerChar (c : Char) : Char :=
  if 'A' ≤ c ∧ c ≤ 'Z' then Char.ofNat (c.toNat + 32) else c

/-- Python `str.lower()`. -/
def pyLower (s : List Char) : List Char := s.map pyLowerChar

/-- The character class `[0-9a-f]`. -/
def isHexLower (c : Char) : Bool :=
  ('0' ≤ c && c ≤ '9') || ('a' ≤ c && c ≤ 'f')

/-- Model of `re.match(r"^0x[0-9a-f]{40}$", address)` (`blockchain_service.py:61`)
as a Boolean test.  (Python's `$` would also accept a trailing newline, but
`validate_address` only applies the pattern to a stripped string.) -/
def matchesAddressPattern (s : List Char) : Bool :=
  match s with
  | c1 :: c2 :: rest => c1 = '0' && c2 = 'x' && rest.length = 40 && rest.all isHexLower
  | _ => false

/-- The error taxonomy of `core/exceptions.py` raised by the blockchain
service. -/
inductive ServiceError where
  | invalidWalletAddress (offending : List Char)
  | rateLimitError
  | blockchainAPIError
deriving DecidableEq, Repr

/-- Model of `BlockchainService.validate_address` (`blockchain_service.py:40-67`):
strip surrounding whitespace, lower-case, then require the pattern
`^0x[0-9a-f]{40}$`; on mismatch raise `InvalidWalletAddressError` carrying
the offending (normalized) input.  The `not isinstance(address, str)`
branch of the source lies outside a typed embedding. -/
def validate_address (address : List Char) : Except ServiceError (List Char) :=
  let address := pyLower (pyStrip address)
  if matchesAddressPattern address then .ok address
  else .error (.invalidWalletAddress address)

/-- The acceptance condition in the words of the claim: the normalized
string is exactly the two-character prefix "0x" followed by 40 hexadecimal
characters. -/
def AddressSpec (s : List Char) : Prop :=
  s.length = 42 ∧ s.take 2 = ['0', 'x'] ∧ ∀ c ∈ s.drop 2, isHexLower c

instance (s : List Char) : Decidable (AddressSpec s) := by
  unfold AddressSpec; infer_instance

/-- A raw address for witnesses: surrounding whitespace and mixed case. -/
def wGoodAddrRaw : List Char := " 0xAbCdEf0123456789aBcDeF0123456789AbCdEf01 ".toList

/-- The canonical form of `wGoodAddrRaw`. -/
def wGoodAddrNorm : List Char := "0xabcdef0123456789abcdef0123456789abcdef01".toList

/-- A malformed address for witnesses (wrong length). -/
def wBadAddrRaw : List Char := "0x123".toList

/-! ## services/blockchain_service.py — numeric formatting -/

/-- Decimal digits of a natural number, most significant first (fuel-based
structural recursion so it reduces in the kernel). -/
def natDigitsCore : Nat → Nat → List Char → List Char
  | 0, _, ds => ds
  | fuel+1, n, ds =>
    let d := Char.ofNat (n % 10 + 48)
    if n < 10 then d :: ds else natDigitsCore fuel (n / 10) (d :: ds)

/-- Decimal rendering of a natural number. -/
def natDigits (n : Nat) : List Char := natDigitsCore (n + 1) n []

/-- The digit run accepted by Python `int(str)` after sign handling:
decimal digits with single underscores allowed between digits only.  The
`Bool` flag records that the previous position was the start or an
underscore, so a digit is required next.  (Unicode digits, which Python
also accepts, are outside the embedding.) -/
def pyDigitsAux : Nat → Bool → List Char → Option Nat
  | acc, needDigit, [] => if needDigit then none else some acc
  | acc, needDigit, c :: cs =>
    if c.isDigit then pyDigitsAux (acc * 10 + (c.toNat - 48)) false cs
    else if c = '_' then
      if needDigit then none else pyDigitsAux acc true cs
    else none

/-- The digit-run parser, requiring at least one digit. -/
def pyDigits (s : List Char) : Option Nat := pyDigitsAux 0 true s

/-- Python `int(s)` on a string, with `ValueError` as `none`: optional
surrounding whitespace, an optional sign, then a digit run. -/
def pyInt (s : List Char) : Option Int :=
  match pyStrip s with
  | '+' :: rest => (pyDigits rest).map (fun n => (n : Int))
  | '-' :: rest => (pyDigits rest).map (fun n => -(n : Int))
  | t => (pyDigits t).map (fun n => (n : Int))

/-- Round `num / den` to the nearest integer, ties to even — the rounding
used by `%.6f` formatting, applied here to the exact quotient. -/
def roundHalfEven (num den : Nat) : Nat :=
  let q := num / den
  let r := num % den
  if 2 * r > den then q + 1
  else if 2 * r < den then q
  else if q % 2 = 0 then q else q + 1

/-- Left-pad with '0' to width `w`. -/
def padZeros (s : List Char) (w : Nat) : List Char :=
  List.replicate (w - s.length) '0' ++ s

/-- Python `f"{x:.6f}"` for the exact value `±(units · 10⁻⁶)`. -/
def fixed6 (neg : Bool) (units : Nat) : List Char :=
  (if neg then ['-'] else []) ++ natDigits (units / 1000000) ++
    '.' :: padZeros (natDigits (units % 1000000)) 6

/-- Python `str.rstrip(c)`: drop every trailing occurrence of `c`. -/
def pyRstrip (s : List Char) (c : Char) : List Char :=
  (s.reverse.dropWhile (fun x => x = c)).reverse

/-- The shared tail of `_format_ether` and `_format_token_balance`: divide
by `divisor`, render with six decimal places, strip trailing zeros, then a
trailing decimal point.  The source divides in binary floating point
(`wei_int / 1e18`, `balance_int / divisor`); the embedding divides exactly
and rounds the true quotient half-to-even, which coincides with the float
pipeline on all the spec's vectors (their quotients round identically). -/
def formatScaled (value : Int) (divisor : Nat) : List Char :=
  let neg := value < 0
  let units := roundHalfEven (value.natAbs * 1000000) divisor
  pyRstrip (pyRstrip (fixed6 neg units) '0') '.'

/-- Model of `BlockchainService._format_ether` (`blockchain_service.py:408-424`). -/
def _format_ether (wei : List Char) : List Char :=
  match pyInt wei with
  | none => ['0']
  | some wei_int => formatScaled wei_int (10 ^ 18)

/-- Model of `BlockchainService._format_token_balance`
(`blockchain_service.py:426-444`). -/
def _format_token_balance (balance : List Char) (decimals : Nat) : List Char :=
  match pyInt balance with
  | none => ['0']
  | some balance_int => formatScaled balance_int (10 ^ decimals)

/-! ## bot/handlers.py — message chunking -/

/-- Model of `Config.TELEGRAM_MAX_MESSAGE_LENGTH` (`core/config.py:18`). -/
def TELEGRAM_MAX_MESSAGE_LENGTH : Nat := 4096

/-- Python `message.split("\n")`, accumulator form: keeps empty pieces, and
an input without newlines yields the single piece itself. -/
def splitLinesAux : List Char → List Char → List (List Char)
  | [], cur => [cur.reverse]
  | c :: cs, cur =>
    if c = '\n' then cur.reverse :: splitLinesAux cs []
    else splitLinesAux cs (c :: cur)

/-- Python `message.split("\n")`. -/
def splitLines (s : List Char) : List (List Char) := splitLinesAux s []

/-- The loop body of `_split_message` (`bot/handlers.py:497-505`); the
state is (chunks appended so far, current chunk). -/
def splitStep (max_length : Nat) (st : List (List Char) × List Char)
    (line : List Char) : List (List Char) × List Char :=
  if st.2.length + line.length + 1 > max_length then
    (if st.2.isEmpty then st.1 else st.1 ++ [st.2], line ++ ['\n'])
  else (st.1, st.2 ++ line ++ ['\n'])

/-- Model of `_split_message` (`bot/handlers.py:483-511`); the source's default for
`max_length` is `TELEGRAM_MAX_MESSAGE_LENGTH`. -/
def _split_message (message : List Char) (max_length : Nat) :
    List (List Char) :=
  if message.length ≤ max_length then [message]
  else
    let st := (splitLines message).foldl (splitStep max_length) ([], [])
    if st.2.isEmpty then st.1 else st.1 ++ [st.2]

/-- Each line terminated by the newline the loop appends. -/
def joinLines (ls : List (List Char)) : List Char :=
  (ls.map (fun l => l ++ ['\n'])).flatten

/-- What is actually true of every chunk `_split_message` emits: it is some
text plus a terminating newline, and it fits the budget unless it is a
single over-long input line (plus the newline). -/
def chunkOk (L : Nat) (lines : List (List Char)) (chunk : List Char) : Prop :=
  (∃ p, chunk = p ++ ['\n']) ∧
  (chunk.length ≤ L ∨
    ∃ line ∈ lines, chunk = line ++ ['\n'] ∧ L < line.length + 1)

/-! ## services/blockchain_service.py — retry loop -/

/-- The outcome of one HTTP attempt inside `_make_request`
(`blockchain_service.py:93-127`): a successful JSON body, an
`httpx.HTTPStatusError` with its status code (raised by
`raise_for_status`), or an `httpx.RequestError` (transport failure). -/
inductive AttemptResult where
  | success (body : String)
  | httpStatusError (status : Nat)
  | requestError (msg : String)
deriving DecidableEq, Repr

/-- An attempt outcome the loop retries: any HTTP status failure other than
429, and any transport error. -/
def retryable : AttemptResult → Bool
  | .success _ => false
  | .httpStatusError status => status ≠ 429
  | .requestError _ => true

/-- The retry loop of `_make_request` (`blockchain_service.py:93-132`) from
attempt number `attempt` with `fuel = retries - attempt` iterations left;
`responses` gives the outcome of each attempt, `delay` is
`Config.API_RETRY_DELAY`.  Returns the result (`RateLimitError` on a 429,
`BlockchainAPIError` when the loop exhausts its attempts), the number of
attempts consumed, and the backoff sleeps `delay * 2 ** attempt` performed,
in order. -/
def makeRequestGo (responses : Nat → AttemptResult) (delay : Rat)
    (retries : Nat) : Nat → Nat → Except ServiceError String × Nat × List Rat
  | 0, attempt => (.error .blockchainAPIError, attempt, [])
  | fuel+1, attempt =>
    match responses attempt with
    | .success body => (.ok body, attempt + 1, [])
    | .httpStatusError status =>
      if status = 429 then (.error .rateLimitError, attempt + 1, [])
      else if attempt + 1 < retries then
        let r := makeRequestGo responses delay retries fuel (attempt + 1)
        (r.1, r.2.1, delay * 2 ^ attempt :: r.2.2)
      else (.error .blockchainAPIError, attempt + 1, [])
    | .requestError _ =>
      if attempt + 1 < retries then
        let r := makeRequestGo responses delay retries fuel (attempt + 1)
        (r.1, r.2.1, delay * 2 ^ attempt :: r.2.2)
      else (.error .blockchainAPIError, attempt + 1, [])

/-- The retry behaviour of `_make_request` (`blockchain_service.py:69-132`),
abstracted over the per-attempt outcomes; the rate limiting it performs
first (`_apply_rate_limit`) is modelled separately below. -/
def make_request (responses : Nat → AttemptResult) (delay : Rat)
    (retries : Nat) : Except ServiceError String × Nat × List Rat :=
  makeRequestGo responses delay retries retries 0

/-- The result the loop stops with at its first non-retryable outcome. -/
def haltResult : AttemptResult → Except ServiceError String
  | .success body => .ok body
  | .httpStatusError _ => .error .rateLimitError
  | .requestError _ => .error .blockchainAPIError

/-- Attempt outcomes for the C4 witness: a transport error, then a
provider 429. -/
def wResponses : Nat → AttemptResult
  | 0 => .requestError "connection reset"
  | _ => .httpStatusError 429

/-! ## services/blockchain_service.py — rate limiting and call traces -/

/-- An observable effect of the blockchain service: decrementing the
per-minute budget (`self._rate_limit_remaining -= 1`), sleeping, or issuing
an HTTP request. -/
inductive ApiEvent where
  | consumeBudget
  | sleep (duration : Rat)
  | httpRequest
deriving DecidableEq, Repr

/-- The rate-limiter state set up in `BlockchainService.__init__`
(`blockchain_service.py:37-38`). -/
structure RateState where
  remaining : Int
  last_request_time : Rat
deriving DecidableEq, Repr

/-- Model of `_apply_rate_limit` (`blockchain_service.py:134-153`).  `now` is the
`time.time()` read on entry and `now2` the one read after the sleep, when a
sleep happens.  Returns the events performed and the new state; the final
`self._rate_limit_remaining -= 1` of the source is inlined into both
branches (after a sleep it decrements the freshly reset budget, giving
`limit - 1`). -/
def apply_rate_limit (limit : Int) (st : RateState) (now now2 : Rat) :
    List ApiEvent × RateState :=
  let time_since_last := now - st.last_request_time
  let st1 := if time_since_last > 60 then
      ({ remaining := limit, last_request_time := now } : RateState) else st
  if st1.remaining ≤ 0 then
    ([ApiEvent.sleep (max (60 - time_since_last) 0), ApiEvent.consumeBudget],
     { remaining := limit - 1, last_request_time := now2 })
  else
    ([ApiEvent.consumeBudget], { st1 with remaining := st1.remaining - 1 })

/-- The events of the attempt loop in `_make_request`: each iteration
issues one HTTP request; a retryable failure before the last attempt sleeps
the backoff delay and continues. -/
def attemptEvents (responses : Nat → AttemptResult) (delay : Rat)
    (retries : Nat) : Nat → Nat → List ApiEvent
  | 0, _ => []
  | fuel+1, attempt =>
    ApiEvent.httpRequest ::
      (match responses attempt with
       | .success _ => []
       | .httpStatusError status =>
         if status = 429 then []
         else if attempt + 1 < retries then
           ApiEvent.sleep (delay * 2 ^ attempt) ::
             attemptEvents responses delay retries fuel (attempt + 1)
         else []
       | .requestError _ =>
         if attempt + 1 < retries then
           ApiEvent.sleep (delay * 2 ^ attempt) ::
             attemptEvents responses delay retries fuel (attempt + 1)
         else [])

/-- The full event trace of `_make_request` (`blockchain_service.py:69-132`):
rate limiting first, then the attempt loop. -/
def makeRequestEvents (limit : Int) (st : RateState) (now now2 : Rat)
    (responses : Nat → AttemptResult) (delay : Rat) (retries : Nat) :
    List ApiEvent × RateState :=
  let (evs, st2) := apply_rate_limit limit st now now2
  (evs ++ attemptEvents responses delay retries retries 0, st2)

/-- The provider backend fixed at startup (`self.provider`). -/
inductive Provider where
  | etherscan
  | alchemy
deriving DecidableEq, Repr

/-- The three public fetch operations the claim quantifies over. -/
inductive FetchOp where
  | get_balance
  | get_tokens
  | get_transactions
deriving DecidableEq, Repr

/-- The event trace of each public fetch operation after address
validation, by provider.  The Etherscan paths (`_get_balance_etherscan`,
`_get_tokens_etherscan`, `_get_transactions_etherscan`) all go through
`_make_request`.  `_get_balance_alchemy` (`blockchain_service.py:194-217`)
posts directly with its own `httpx` client — one HTTP request, no
`_apply_rate_limit` call; `_get_tokens_alchemy` and
`_get_transactions_alchemy` (`blockchain_service.py:288-293,397-406`) are
stubs returning an empty summary with no HTTP request at all. -/
def fetchEvents (op : FetchOp) (provider : Provider) (limit : Int)
    (st : RateState) (now now2 : Rat) (responses : Nat → AttemptResult)
    (delay : Rat) (retries : Nat) : List ApiEvent × RateState :=
  match provider with
  | .etherscan => makeRequestEvents limit st now now2 responses delay retries
  | .alchemy =>
    match op with
    | .get_balance => ([ApiEvent.httpRequest], st)
    | .get_tokens => ([], st)
    | .get_transactions => ([], st)

/-- The budget discipline in the claim's words: a budget unit is consumed
before the first HTTP request of the trace. -/
def budgetBeforeFirstHttp : List ApiEvent → Bool
  | [] => true
  | ApiEvent.httpRequest :: _ => false
  | ApiEvent.consumeBudget :: _ => true
  | ApiEvent.sleep _ :: rest => budgetBeforeFirstHttp rest

/-- A concrete transaction record, used to build sample inputs. -/
def sampleTx : Transaction :=
  { hash := "0x1234567890abcdef"
    from_address := "0xfrom"
    to_address := some "0xto"
    value := "1000000000000000000"
    value_display := "1"
    gas_price := "20000000000"
    gas_used := some "21000"
    timestamp := 1704067200
    block_number := 1000000
    is_error := false
    type := .send
    method_id := none }

end EtherScope

namespace EtherScope

/-! ## Theorems about the scorer -/

/-- C1: for every activity level, every transaction summary with
non-negative counts, and every combination of the DeFi/NFT/deployer flags,
`calculate_wallet_score` returns an integer in the interval [0, 100]. -/
theorem C1_wallet_score_in_range (activity_level : ActivityLevel)
    (transaction_summary : TransactionSummary)
    (defi_user nft_trader contract_deployer : Bool) :
    0 ≤ calculate_wallet_score activity_level transaction_summary
        defi_user nft_trader contract_deployer ∧
    calculate_wallet_score activity_level transaction_summary
        defi_user nft_trader contract_deployer ≤ 100 :=
  ⟨Nat.zero_le _, Nat.min_le_right _ _⟩

/-- C6: the activity classification is dormant below 5 transactions (in
particular on the empty sample), low on [5, 20), moderate on [20, 100),
active on [100, 1000), highly-active from 1000 on, and the dormant level
contributes 0 points to the wallet score. -/
theorem C6_activity_level_thresholds (transactions : List Transaction) :
    (transactions.length < 5 → detect_activity_level transactions = .dormant) ∧
    (5 ≤ transactions.length → transactions.length < 20 →
      detect_activity_level transactions = .low) ∧
    (20 ≤ transactions.length → transactions.length < 100 →
      detect_activity_level transactions = .moderate) ∧
    (100 ≤ transactions.length → transactions.length < 1000 →
      detect_activity_level transactions = .active) ∧
    (1000 ≤ transactions.length → detect_activity_level transactions = .highly_active) ∧
    activity_scores .dormant = 0 := by
  have hlen : transactions.isEmpty = true ↔ transactions.length = 0 := by
    cases transactions <;> simp
  refine ⟨?_, ?_, ?_, ?_, ?_, rfl⟩ <;> intros <;>
    simp only [detect_activity_level] <;> split_ifs <;>
    first | rfl | (exfalso; simp_all; omega) | (exfalso; simp_all)

/-- Witness for C6 at concrete sample sizes straddling each boundary. -/
theorem C6_activity_level_thresholds_witness :
    detect_activity_level (List.replicate 4 sampleTx) = .dormant ∧
    detect_activity_level (List.replicate 5 sampleTx) = .low ∧
    detect_activity_level (List.replicate 20 sampleTx) = .moderate ∧
    detect_activity_level (List.replicate 100 sampleTx) = .active ∧
    detect_activity_level (List.replicate 1000 sampleTx) = .highly_active :=
  ⟨(C6_activity_level_thresholds _).1
     (by simp only [List.length_replicate]; omega),
   (C6_activity_level_thresholds _).2.1
     (by simp only [List.length_replicate]; omega)
     (by simp only [List.length_replicate]; omega),
   (C6_activity_level_thresholds _).2.2.1
     (by simp only [List.length_replicate]; omega)
     (by simp only [List.length_replicate]; omega),
   (C6_activity_level_thresholds _).2.2.2.1
     (by simp only [List.length_replicate]; omega)
     (by simp only [List.length_replicate]; omega),
   (C6_activity_level_thresholds _).2.2.2.2.1
     (by simp only [List.length_replicate]; omega)⟩

/-! ## Lemmas about the cache dictionary -/

variable {V : Type}

theorem dictGet_dictSet_self (c : List (String × CacheEntry V)) (k : String)
    (e : CacheEntry V) : dictGet (dictSet c k e) k = some e := by
  induction c with
  | nil => simp [dictSet, dictGet]
  | cons p rest ih => by_cases h : p.1 = k <;> simp [dictSet, dictGet, h, ih]

theorem dictDelete_length_le (c : List (String × CacheEntry V)) (k : String) :
    (dictDelete c k).length ≤ c.length := by
  induction c with
  | nil => simp [dictDelete]
  | cons p rest ih =>
    by_cases h : p.1 = k <;> simp [dictDelete, h] <;> omega

theorem dictDelete_length_of_mem (c : List (String × CacheEntry V)) (k : String)
    (h : ∃ p ∈ c, p.1 = k) : (dictDelete c k).length + 1 = c.length := by
  induction c with
  | nil => simp at h
  | cons p rest ih =>
    by_cases hp : p.1 = k
    · simp [dictDelete, hp]
    · have h' : ∃ q ∈ rest, q.1 = k := by
        rcases h with ⟨q, hq, hqk⟩
        rcases List.mem_cons.mp hq with rfl | hq'
        · exact absurd hqk hp
        · exact ⟨q, hq', hqk⟩
      simp [dictDelete, hp, ih h']

theorem dictSet_length_le (c : List (String × CacheEntry V)) (k : String)
    (e : CacheEntry V) : (dictSet c k e).length ≤ c.length + 1 := by
  induction c with
  | nil => simp [dictSet]
  | cons p rest ih =>
    by_cases h : p.1 = k <;> simp [dictSet, h] <;> omega

theorem foldl_minByCreated_mem (rest : List (String × CacheEntry V))
    (p : String × CacheEntry V) : rest.foldl minByCreated p ∈ p :: rest := by
  induction rest generalizing p with
  | nil => simp
  | cons q rest ih =>
    have h := ih (minByCreated p q)
    have hpq : minByCreated p q = p ∨ minByCreated p q = q := by
      unfold minByCreated; split_ifs <;> simp
    simp only [List.foldl_cons]
    rcases List.mem_cons.mp h with h' | h'
    · rcases hpq with h2 | h2 <;> rw [h'] at * <;> simp [h2]
    · simp [h']

theorem foldl_minByCreated_le_init (rest : List (String × CacheEntry V))
    (p : String × CacheEntry V) :
    (rest.foldl minByCreated p).2.created_at ≤ p.2.created_at := by
  induction rest generalizing p with
  | nil => simp
  | cons q rest ih =>
    have hmin_p : (minByCreated p q).2.created_at ≤ p.2.created_at := by
      unfold minByCreated; split_ifs <;> omega
    simpa only [List.foldl_cons] using le_trans (ih (minByCreated p q)) hmin_p

theorem foldl_minByCreated_le (rest : List (String × CacheEntry V))
    (p x : String × CacheEntry V) (hx : x ∈ p :: rest) :
    (rest.foldl minByCreated p).2.created_at ≤ x.2.created_at := by
  induction rest generalizing p with
  | nil =>
    simp only [List.mem_singleton] at hx
    subst hx; simp
  | cons q rest ih =>
    have hmin_p : (minByCreated p q).2.created_at ≤ p.2.created_at := by
      unfold minByCreated; split_ifs <;> omega
    have hmin_q : (minByCreated p q).2.created_at ≤ q.2.created_at := by
      unfold minByCreated; split_ifs <;> omega
    have hinit := foldl_minByCreated_le_init rest (minByCreated p q)
    simp only [List.foldl_cons]
    rcases List.mem_cons.mp hx with h1 | hx'
    · rw [h1]; exact le_trans hinit hmin_p
    · rcases List.mem_cons.mp hx' with h2 | hx''
      · rw [h2]; exact le_trans hinit hmin_q
      · exact ih (minByCreated p q) (List.mem_cons_of_mem _ hx'')

theorem oldestEntry_mem (c : List (String × CacheEntry V))
    (old : String × CacheEntry V) (h : oldestEntry c = some old) : old ∈ c := by
  cases c with
  | nil => simp [oldestEntry] at h
  | cons p rest =>
    simp only [oldestEntry, Option.some.injEq] at h
    rw [← h]
    exact foldl_minByCreated_mem rest p

theorem oldestEntry_min (c : List (String × CacheEntry V))
    (old : String × CacheEntry V) (h : oldestEntry c = some old) :
    ∀ q ∈ c, old.2.created_at ≤ q.2.created_at := by
  cases c with
  | nil => simp [oldestEntry] at h
  | cons p rest =>
    simp only [oldestEntry, Option.some.injEq] at h
    intro q hq
    rw [← h]
    exact foldl_minByCreated_le rest p q hq

theorem oldestEntry_isSome (c : List (String × CacheEntry V)) (h : c ≠ []) :
    ∃ old, oldestEntry c = some old := by
  cases c with
  | nil => exact absurd rfl h
  | cons p rest => exact ⟨_, rfl⟩

theorem foldl_dictDelete_length_le (ks : List String)
    (c : List (String × CacheEntry V)) :
    (ks.foldl dictDelete c).length ≤ c.length := by
  induction ks generalizing c with
  | nil => simp
  | cons k ks ih =>
    simp only [List.foldl_cons]
    exact le_trans (ih _) (dictDelete_length_le c k)

/-! ## Theorems about the cache -/

/-- C2: on an enabled cache, `get` right after `set` of the same key, at
most the entry's TTL later, returns exactly the stored value and leaves the
state unchanged; and `get` of a key whose entry is expired at the time of
the call returns absent and deletes that entry from the dict. -/
theorem C2_cache_roundtrip_and_expiry (s : CacheService V)
    (key : String) (value : V) (ttl? : Option Int) (t1 t2 : Int)
    (hen : s.enabled = true) :
    (t2 - t1 ≤ effective_ttl s.ttl ttl? →
      (s.set key value ttl? t1).get key t2 =
        (some value, s.set key value ttl? t1)) ∧
    (∀ entry, dictGet s._cache key = some entry → entry.is_expired t2 = true →
      s.get key t2 = (none, { s with _cache := dictDelete s._cache key })) := by
  constructor
  · intro hle
    have hfresh :
        (CacheEntry.is_expired ⟨value, effective_ttl s.ttl ttl?, t1⟩ t2) = false := by
      simp only [CacheEntry.is_expired, decide_eq_false_iff_not, not_lt]
      omega
    unfold CacheService.set CacheService.get
    simp [hen, dictGet_dictSet_self, hfresh]
  · intro entry hget hexp
    unfold CacheService.get
    simp [hen, hget, hexp]

/-- Witness for C2: a round trip through `wCacheState` exactly at the TTL
boundary. -/
theorem C2_cache_roundtrip_and_expiry_witness :
    (wCacheState.set "k" 7 none 0).get "k" 300 =
      (some 7, wCacheState.set "k" 7 none 0) :=
  (C2_cache_roundtrip_and_expiry wCacheState "k" 7 none 0 300 rfl).1 (by decide)

/-- The single-step form of the C3 size invariant: every operation
preserves `max_size` and, when `max_size ≥ 1`, keeps the entry count at or
below it. -/
theorem applyOp_preserves (s : CacheService V) (op : CacheOp V)
    (hm : 1 ≤ s.max_size) (hlen : s._cache.length ≤ s.max_size) :
    (s.applyOp op)._cache.length ≤ s.max_size ∧
    (s.applyOp op).max_size = s.max_size ∧ 1 ≤ (s.applyOp op).max_size := by
  have hms : (s.applyOp op).max_size = s.max_size := by
    cases op <;>
      simp only [CacheService.applyOp, CacheService.get, CacheService.set,
        CacheService.delete, CacheService.clear, CacheService.cleanup_expired,
        CacheService.get_stats] <;>
      (repeat' split) <;> rfl
  refine ⟨?_, hms, hms ▸ hm⟩
  cases op with
  | get k now =>
    simp only [CacheService.applyOp, CacheService.get]
    split
    · exact hlen
    · split
      · exact hlen
      · split
        · exact le_trans (dictDelete_length_le _ _) hlen
        · exact hlen
  | set k v ttl? now =>
    simp only [CacheService.applyOp, CacheService.set]
    split
    · exact hlen
    · by_cases hfull : s._cache.length ≥ s.max_size
      · have hne : s._cache ≠ [] := by
          intro hnil
          rw [hnil] at hfull
          simp at hfull
          omega
        obtain ⟨old, hold⟩ := oldestEntry_isSome s._cache hne
        have hmem : ∃ p ∈ s._cache, p.1 = old.1 :=
          ⟨old, oldestEntry_mem _ _ hold, rfl⟩
        have hdel := dictDelete_length_of_mem s._cache old.1 hmem
        simp only [if_pos hfull, hold]
        calc (dictSet (dictDelete s._cache old.1) k
                ⟨v, effective_ttl s.ttl ttl?, now⟩).length
            ≤ (dictDelete s._cache old.1).length + 1 := dictSet_length_le _ _ _
          _ = s._cache.length := hdel
          _ ≤ s.max_size := hlen
      · simp only [if_neg hfull]
        have : s._cache.length < s.max_size := lt_of_not_ge hfull
        calc (dictSet s._cache k ⟨v, effective_ttl s.ttl ttl?, now⟩).length
            ≤ s._cache.length + 1 := dictSet_length_le _ _ _
          _ ≤ s.max_size := this
  | delete k =>
    simpa only [CacheService.applyOp, CacheService.delete] using
      le_trans (dictDelete_length_le _ _) hlen
  | clear => simp [CacheService.applyOp, CacheService.clear]
  | cleanup now =>
    simpa only [CacheService.applyOp, CacheService.cleanup_expired] using
      le_trans (foldl_dictDelete_length_le _ _) hlen
  | stats now =>
    simpa only [CacheService.applyOp, CacheService.get_stats,
      CacheService.cleanup_expired] using
      le_trans (foldl_dictDelete_length_le _ _) hlen

/-- The C3 size invariant over operation sequences. -/
theorem runOps_length_le (s : CacheService V) (ops : List (CacheOp V))
    (hm : 1 ≤ s.max_size) (hlen : s._cache.length ≤ s.max_size) :
    (s.runOps ops)._cache.length ≤ s.max_size := by
  induction ops generalizing s with
  | nil => exact hlen
  | cons op ops ih =>
    obtain ⟨h1, h2, h3⟩ := applyOp_preserves s op hm hlen
    simpa only [CacheService.runOps, List.foldl_cons, h2] using
      h2 ▸ ih (s.applyOp op) h3 (h2.symm ▸ h1)

/-- C3: on an enabled cache at capacity (with a positive capacity), `set`
evicts exactly the binding with the minimal creation time — `old` below,
which is no younger than any entry — and then inserts the new entry; and
over any sequence of operations from a state within capacity the entry
count never exceeds `max_size`. -/
theorem C3_capacity_eviction (s : CacheService V) (key : String)
    (value : V) (ttl? : Option Int) (now : Int) (old : String × CacheEntry V)
    (hen : s.enabled = true) (hm : 1 ≤ s.max_size)
    (hfull : s._cache.length = s.max_size)
    (hold : oldestEntry s._cache = some old) :
    ((s.set key value ttl? now)._cache =
       dictSet (dictDelete s._cache old.1) key
         ⟨value, effective_ttl s.ttl ttl?, now⟩ ∧
     ∀ q ∈ s._cache, old.2.created_at ≤ q.2.created_at) ∧
    (∀ (s₀ : CacheService V) (ops : List (CacheOp V)),
      1 ≤ s₀.max_size → s₀._cache.length ≤ s₀.max_size →
      (s₀.runOps ops)._cache.length ≤ s₀.max_size) := by
  refine ⟨⟨?_, oldestEntry_min _ _ hold⟩,
    fun s₀ ops h1 h2 => runOps_length_le s₀ ops h1 h2⟩
  unfold CacheService.set
  simp [hen, hfull, hold]

/-- Witness for C3: setting a third key into the full two-entry
`wCacheState` evicts the oldest-created binding "a". -/
theorem C3_capacity_eviction_witness :
    (wCacheState.set "c" 3 none 10)._cache =
      dictSet (dictDelete wCacheState._cache "a") "c" ⟨3, 300, 10⟩ :=
  (C3_capacity_eviction wCacheState "c" 3 none 10 ("a", ⟨1, 300, 0⟩)
    rfl (by decide) (by decide) (by decide)).1.1

/-! ## Lemmas for `cleanup_expired` -/

theorem dictDelete_cons_ne (p : String × CacheEntry V)
    (rest : List (String × CacheEntry V)) (k : String) (h : ¬p.1 = k) :
    dictDelete (p :: rest) k = p :: dictDelete rest k := by
  simp [dictDelete, h]

theorem foldl_dictDelete_cons_ne (p : String × CacheEntry V)
    (rest : List (String × CacheEntry V)) (ks : List String)
    (h : ∀ k ∈ ks, ¬p.1 = k) :
    ks.foldl dictDelete (p :: rest) = p :: ks.foldl dictDelete rest := by
  induction ks generalizing rest with
  | nil => rfl
  | cons k ks ih =>
    simp only [List.foldl_cons]
    rw [dictDelete_cons_ne p rest k (h k (List.mem_cons_self _ _)),
      ih _ (fun k' hk' => h k' (List.mem_cons_of_mem _ hk'))]

theorem foldl_dictDelete_expired (now : Int)
    (c : List (String × CacheEntry V)) (hnd : (c.map Prod.fst).Nodup) :
    ((c.filter (fun p => p.2.is_expired now)).map (fun p => p.1)).foldl
        dictDelete c =
      c.filter (fun p => !p.2.is_expired now) := by
  induction c with
  | nil => rfl
  | cons p rest ih =>
    simp only [List.map_cons, List.nodup_cons] at hnd
    obtain ⟨hp, hnd'⟩ := hnd
    by_cases hexp : p.2.is_expired now
    · rw [show (p :: rest).filter (fun p => p.2.is_expired now)
          = p :: rest.filter (fun p => p.2.is_expired now) from by simp [hexp]]
      simp only [List.map_cons, List.foldl_cons]
      rw [show dictDelete (p :: rest) p.1 = rest from by simp [dictDelete]]
      rw [ih hnd']
      rw [show (p :: rest).filter (fun p => !p.2.is_expired now)
          = rest.filter (fun p => !p.2.is_expired now) from by simp [hexp]]
    · have hexp' : p.2.is_expired now = false := by
        simpa using hexp
      have hkeys : ∀ k ∈ (rest.filter (fun q => q.2.is_expired now)).map
          (fun q => q.1), ¬p.1 = k := by
        intro k hk heq
        apply hp
        rcases List.mem_map.mp hk with ⟨q, hq, rfl⟩
        exact heq ▸ List.mem_map.mpr ⟨q, List.mem_of_mem_filter hq, rfl⟩
      rw [show (p :: rest).filter (fun p => p.2.is_expired now)
          = rest.filter (fun p => p.2.is_expired now) from by simp [hexp']]
      rw [foldl_dictDelete_cons_ne p rest _ hkeys, ih hnd']
      rw [show (p :: rest).filter (fun p => !p.2.is_expired now)
          = p :: rest.filter (fun p => !p.2.is_expired now) from by simp [hexp']]

/-- C10: on a cache with distinct keys, `get_stats` first removes every
expired entry as a side effect: the post-state keeps exactly the unexpired
bindings, the reported size counts only unexpired entries, and no entry of
the post-state is expired. -/
theorem C10_stats_cleans_expired (s : CacheService V) (now : Int)
    (hnd : (s._cache.map Prod.fst).Nodup) :
    (s.get_stats now).2._cache =
        s._cache.filter (fun p => !p.2.is_expired now) ∧
    (s.get_stats now).1.size =
        (s._cache.filter (fun p => !p.2.is_expired now)).length ∧
    (∀ p ∈ (s.get_stats now).2._cache, p.2.is_expired now = false) := by
  have hclean : (s.get_stats now).2._cache =
      s._cache.filter (fun p => !p.2.is_expired now) := by
    simp only [CacheService.get_stats, CacheService.cleanup_expired]
    exact foldl_dictDelete_expired now s._cache hnd
  refine ⟨hclean, ?_, ?_⟩
  · have hsz : (s.get_stats now).1.size = (s.get_stats now).2._cache.length := rfl
    rw [hsz, hclean]
  · intro p hp
    rw [hclean] at hp
    simpa using List.of_mem_filter hp

/-- Witness for C10: cleaning a two-entry cache whose entry "a" is expired
at instant 50 leaves only entry "b", and the reported size is 1. -/
theorem C10_stats_cleans_expired_witness :
    (CacheService.get_stats
        { enabled := true, ttl := 300, max_size := 2,
          _cache := [("a", ⟨1, 10, 0⟩), ("b", ⟨2, 1000, 0⟩)] } 50).2._cache =
      [("b", (⟨2, 1000, 0⟩ : CacheEntry Nat))] ∧
    (CacheService.get_stats
        { enabled := true, ttl := 300, max_size := 2,
          _cache := [("a", ⟨1, 10, 0⟩), ("b", ⟨2, 1000, 0⟩)] } 50).1.size = 1 := by
  have h := C10_stats_cleans_expired
    (V := Nat)
    { enabled := true, ttl := 300, max_size := 2,
      _cache := [("a", ⟨1, 10, 0⟩), ("b", ⟨2, 1000, 0⟩)] } 50 (by decide)
  exact ⟨h.1.trans (by decide), h.2.1.trans (by decide)⟩

/-! ## Theorems about the address validator -/

theorem matchesAddressPattern_iff (s : List Char) :
    matchesAddressPattern s = true ↔ AddressSpec s := by
  cases s with
  | nil => simp [matchesAddressPattern, AddressSpec]
  | cons c1 t1 =>
    cases t1 with
    | nil => simp [matchesAddressPattern, AddressSpec]
    | cons c2 rest =>
      simp only [matchesAddressPattern, AddressSpec, Bool.and_eq_true,
        decide_eq_true_eq, List.all_eq_true, List.length_cons,
        List.take_succ_cons, List.take_zero, List.drop_succ_cons,
        List.drop_zero, List.cons.injEq, and_true]
      constructor
      · rintro ⟨⟨⟨h0, hx⟩, hlen⟩, hall⟩
        exact ⟨by omega, ⟨h0, hx⟩, hall⟩
      · rintro ⟨hlen, ⟨h0, hx⟩, hall⟩
        exact ⟨⟨⟨h0, hx⟩, by omega⟩, hall⟩

/-- C7: `validate_address` returns the trimmed lower-cased input exactly
when that normalized string is the prefix "0x" followed by 40 hex
characters; any returned value is that normalized string; and in every
other case it fails with `InvalidWalletAddressError` carrying the
normalized input. -/
theorem C7_validate_address (address : List Char) :
    (validate_address address = .ok (pyLower (pyStrip address)) ↔
      AddressSpec (pyLower (pyStrip address))) ∧
    (∀ r, validate_address address = .ok r → r = pyLower (pyStrip address)) ∧
    (¬AddressSpec (pyLower (pyStrip address)) →
      validate_address address =
        .error (.invalidWalletAddress (pyLower (pyStrip address)))) := by
  unfold validate_address
  by_cases h : matchesAddressPattern (pyLower (pyStrip address)) = true
  · rw [if_pos h]
    exact ⟨⟨fun _ => (matchesAddressPattern_iff _).mp h, fun _ => rfl⟩,
      fun r hr => by injection hr with h2; exact h2.symm,
      fun hn => absurd ((matchesAddressPattern_iff _).mp h) hn⟩
  · rw [if_neg h]
    refine ⟨⟨fun hok => absurd hok (by simp), fun hspec =>
      absurd ((matchesAddressPattern_iff _).mpr hspec) h⟩,
      fun r hr => absurd hr (by simp), fun _ => rfl⟩

/-- Witness for C7: a padded mixed-case address is accepted and
canonicalized; a five-character input is rejected with the error carrying
it. -/
theorem C7_validate_address_witness :
    validate_address wGoodAddrRaw = .ok wGoodAddrNorm ∧
    validate_address wBadAddrRaw =
      .error (.invalidWalletAddress ['0', 'x', '1', '2', '3']) := by
  constructor
  · have h := (C7_validate_address wGoodAddrRaw).1.mpr (by decide)
    rw [show pyLower (pyStrip wGoodAddrRaw) = wGoodAddrNorm from by decide] at h
    exact h
  · have h := (C7_validate_address wBadAddrRaw).2.2 (by decide)
    rw [show pyLower (pyStrip wBadAddrRaw) = ['0', 'x', '1', '2', '3'] from
      by decide] at h
    exact h

/-! ## Theorems about numeric formatting -/

/-- C8: the spec's formatting vectors — 10¹⁸ wei renders as "1", 10¹⁵ wei
as "0.001", zero as "0", a 6-decimal token balance of 10⁶ as "1" — and any
input rejected by `int()` yields the literal "0" from both formatters. -/
theorem C8_formatting (s : List Char) (d : Nat) :
    (_format_ether ("1000000000000000000".toList) = ['1'] ∧
     _format_ether ("1000000000000000".toList) = ['0', '.', '0', '0', '1'] ∧
     _format_ether ("0".toList) = ['0'] ∧
     _format_token_balance ("1000000".toList) 6 = ['1']) ∧
    (pyInt s = none →
      _format_ether s = ['0'] ∧ _format_token_balance s d = ['0']) := by
  refine ⟨⟨by decide, by decide, by decide, by decide⟩, fun h => ⟨?_, ?_⟩⟩
  · simp [_format_ether, h]
  · simp [_format_token_balance, h]

/-- Witness for C8: the non-numeric input "abc" is rejected by the integer
parser and both formatters return "0" on it. -/
theorem C8_formatting_witness :
    pyInt ("abc".toList) = none ∧ _format_ether ("abc".toList) = ['0'] ∧
      _format_token_balance ("abc".toList) 18 = ['0'] :=
  ⟨by decide, ((C8_formatting ("abc".toList) 18).2 (by decide)).1,
    ((C8_formatting ("abc".toList) 18).2 (by decide)).2⟩

/-! ## Theorems about message chunking -/

theorem splitLinesAux_replicate (m : Nat) (cur : List Char) :
    splitLinesAux (List.replicate m 'a') cur =
      [cur.reverse ++ List.replicate m 'a'] := by
  induction m generalizing cur with
  | zero => simp [splitLinesAux]
  | succ m ih =>
    rw [List.replicate_succ]
    simp only [splitLinesAux, if_neg (by decide : ¬('a' = '\n'))]
    rw [ih ('a' :: cur)]
    simp

/-- On a message that is one single line longer than the budget, the loop
emits the whole line (plus an appended newline) as one oversized chunk. -/
theorem splitStep_nil_overflow (L : Nat) (line : List Char)
    (hL : L < line.length) :
    splitStep L ([], []) line = ([], line ++ ['\n']) := by
  unfold splitStep
  rw [if_pos]
  · rfl
  · show L < ([] : List Char).length + line.length + 1
    simp only [List.length_nil]
    omega

theorem split_single_line (line : List Char) (L : Nat)
    (hL : L < line.length) (hnl : splitLines line = [line]) :
    _split_message line L = [line ++ ['\n']] := by
  unfold _split_message
  rw [if_neg (by omega)]
  dsimp only
  rw [hnl, List.foldl_cons, List.foldl_nil, splitStep_nil_overflow L line hL]
  simp

/-- C9 fails on the code: a message that is a single 4097-character line
exceeds the 4096-character budget, and `_split_message` returns one chunk
— the line plus an appended newline — of length 4098 > 4096. -/
theorem C9_counterexample :
    ∃ chunk ∈ _split_message (List.replicate 4097 'a')
        TELEGRAM_MAX_MESSAGE_LENGTH,
      TELEGRAM_MAX_MESSAGE_LENGTH < chunk.length := by
  have h1 : splitLines (List.replicate 4097 'a') = [List.replicate 4097 'a'] := by
    unfold splitLines
    rw [splitLinesAux_replicate, List.reverse_nil, List.nil_append]
  have h2 := split_single_line (List.replicate 4097 'a')
    TELEGRAM_MAX_MESSAGE_LENGTH
    (by rw [List.length_replicate]; decide) h1
  rw [h2]
  refine ⟨List.replicate 4097 'a' ++ ['\n'], List.mem_singleton_self _, ?_⟩
  rw [List.length_append, List.length_replicate]
  decide

theorem joinLines_nil : joinLines [] = [] := rfl

theorem joinLines_cons (l : List Char) (ls : List (List Char)) :
    joinLines (l :: ls) = l ++ '\n' :: joinLines ls := by
  simp [joinLines]

theorem joinLines_splitLinesAux (s cur : List Char) :
    joinLines (splitLinesAux s cur) = cur.reverse ++ s ++ ['\n'] := by
  induction s generalizing cur with
  | nil => simp [splitLinesAux, joinLines]
  | cons c cs ih =>
    by_cases h : c = '\n'
    · subst h
      rw [show splitLinesAux ('\n' :: cs) cur = cur.reverse :: splitLinesAux cs []
        from by simp [splitLinesAux]]
      rw [joinLines_cons, ih []]
      simp
    · simp only [splitLinesAux, if_neg h]
      rw [ih (c :: cur)]
      simp

theorem stJoin_splitStep (L : Nat) (st : List (List Char) × List Char)
    (line : List Char) :
    (splitStep L st line).1.flatten ++ (splitStep L st line).2 =
      (st.1.flatten ++ st.2) ++ (line ++ ['\n']) := by
  unfold splitStep
  split_ifs with h1 h2
  · have : st.2 = [] := by
      cases h : st.2 with
      | nil => rfl
      | cons a t => rw [h] at h2; simp at h2
    simp [this]
  · simp
  · simp

theorem foldl_splitStep_join (L : Nat) (ls : List (List Char))
    (st : List (List Char) × List Char) :
    (ls.foldl (splitStep L) st).1.flatten ++ (ls.foldl (splitStep L) st).2 =
      (st.1.flatten ++ st.2) ++ joinLines ls := by
  induction ls generalizing st with
  | nil => simp [joinLines]
  | cons l ls ih =>
    simp only [List.foldl_cons]
    rw [ih, stJoin_splitStep, joinLines_cons]
    simp

theorem splitStep_chunkOk (L : Nat) (lines : List (List Char))
    (st : List (List Char) × List Char) (l : List Char) (hl : l ∈ lines)
    (hst1 : ∀ c ∈ st.1, chunkOk L lines c)
    (hst2 : st.2 = [] ∨ chunkOk L lines st.2) :
    (∀ c ∈ (splitStep L st l).1, chunkOk L lines c) ∧
    ((splitStep L st l).2 = [] ∨ chunkOk L lines (splitStep L st l).2) := by
  have hnewcur : chunkOk L lines (l ++ ['\n']) := by
    refine ⟨⟨l, rfl⟩, ?_⟩
    by_cases hlen : (l ++ ['\n']).length ≤ L
    · exact Or.inl hlen
    · refine Or.inr ⟨l, hl, rfl, ?_⟩
      simp only [List.length_append, List.length_singleton, not_le] at hlen
      omega
  unfold splitStep
  split_ifs with h1 h2
  · exact ⟨hst1, Or.inr hnewcur⟩
  · have hcur : chunkOk L lines st.2 := by
      rcases hst2 with h | h
      · rw [h] at h2; simp at h2
      · exact h
    refine ⟨?_, Or.inr hnewcur⟩
    intro c hc
    rcases List.mem_append.mp hc with h | h
    · exact hst1 c h
    · rw [List.mem_singleton.mp h]; exact hcur
  · refine ⟨hst1, Or.inr ⟨⟨st.2 ++ l, by simp⟩, Or.inl ?_⟩⟩
    push_neg at h1
    simp only [List.length_append, List.length_singleton]
    omega

theorem foldl_splitStep_chunkOk (L : Nat) (lines : List (List Char))
    (ls : List (List Char)) (hls : ∀ l ∈ ls, l ∈ lines)
    (st : List (List Char) × List Char)
    (hst1 : ∀ c ∈ st.1, chunkOk L lines c)
    (hst2 : st.2 = [] ∨ chunkOk L lines st.2) :
    (∀ c ∈ (ls.foldl (splitStep L) st).1, chunkOk L lines c) ∧
    ((ls.foldl (splitStep L) st).2 = [] ∨
      chunkOk L lines (ls.foldl (splitStep L) st).2) := by
  induction ls generalizing st with
  | nil => exact ⟨hst1, hst2⟩
  | cons l ls ih =>
    simp only [List.foldl_cons]
    have hstep := splitStep_chunkOk L lines st l (hls l (List.mem_cons_self _ _))
      hst1 hst2
    exact ih (fun x hx => hls x (List.mem_cons_of_mem _ hx)) _ hstep.1 hstep.2

/-- C9 amended: a message within the budget is returned whole; otherwise
the concatenation of the chunks is the message plus one final newline (so
every line is preserved and splits happen only at line boundaries), and
every chunk either fits the budget or is a single over-long input line
plus its newline. -/
theorem C9_amended_chunking (message : List Char) (max_length : Nat) :
    (message.length ≤ max_length →
      _split_message message max_length = [message]) ∧
    (max_length < message.length →
      (_split_message message max_length).flatten = message ++ ['\n'] ∧
      ∀ chunk ∈ _split_message message max_length,
        chunkOk max_length (splitLines message) chunk) := by
  constructor
  · intro h; unfold _split_message; rw [if_pos h]
  · intro h
    have hnle : ¬message.length ≤ max_length := not_le.mpr h
    have hjl : joinLines (splitLines message) = message ++ ['\n'] := by
      unfold splitLines; rw [joinLines_splitLinesAux]; simp
    have hjoin := foldl_splitStep_join max_length (splitLines message) ([], [])
    simp only [List.flatten_nil, List.append_nil, List.nil_append] at hjoin
    rw [hjl] at hjoin
    have hok := foldl_splitStep_chunkOk max_length (splitLines message)
      (splitLines message) (fun _ hx => hx) ([], [])
      (by intro c hc; simp at hc) (Or.inl rfl)
    unfold _split_message
    rw [if_neg hnle]
    dsimp only
    constructor
    · split_ifs with h2
      · have hnil : ((splitLines message).foldl (splitStep max_length)
            ([], [])).2 = [] := by
          cases hc : ((splitLines message).foldl (splitStep max_length)
            ([], [])).2 with
          | nil => rfl
          | cons a t => rw [hc] at h2; simp at h2
        rw [← hjoin, hnil, List.append_nil]
      · rw [← hjoin, List.flatten_append]
        simp
    · intro chunk hchunk
      split_ifs at hchunk with h2
      · exact hok.1 chunk hchunk
      · rcases List.mem_append.mp hchunk with hm | hm
        · exact hok.1 chunk hm
        · rw [List.mem_singleton.mp hm]
          rcases hok.2 with hnil | hcur
          · rw [hnil] at h2; simp at h2
          · exact hcur

/-- Witness for C9 amended: the two-line message "ab\ncd" with budget 3 is
chunked so that its concatenation is the message plus a final newline. -/
theorem C9_amended_chunking_witness :
    (_split_message ("ab\ncd".toList) 3).flatten = "ab\ncd".toList ++ ['\n'] :=
  ((C9_amended_chunking ("ab\ncd".toList) 3).2 (by decide)).1

/-! ## Theorems about the retry loop -/

theorem makeRequestGo_exhaust (responses : Nat → AttemptResult) (delay : Rat)
    (retries : Nat) :
    ∀ fuel attempt, fuel = retries - attempt → attempt ≤ retries →
    (∀ j, attempt ≤ j → j < retries → retryable (responses j) = true) →
    makeRequestGo responses delay retries fuel attempt =
      (.error .blockchainAPIError, retries,
        (List.range' attempt (retries - 1 - attempt)).map
          (fun j => delay * 2 ^ j)) := by
  intro fuel
  induction fuel with
  | zero =>
    intro attempt hf hle _
    have heq : attempt = retries := by omega
    subst heq
    have hz : attempt - 1 - attempt = 0 := by omega
    rw [hz]
    rfl
  | succ fuel ih =>
    intro attempt hf hle hall
    have hlt : attempt < retries := by omega
    have hr := hall attempt le_rfl hlt
    cases hresp : responses attempt with
    | success body => rw [hresp] at hr; simp [retryable] at hr
    | httpStatusError status =>
      have hs : ¬status = 429 := by
        rw [hresp] at hr; simpa [retryable] using hr
      simp only [makeRequestGo, hresp, if_neg hs]
      by_cases hlast : attempt + 1 < retries
      · rw [if_pos hlast,
          ih (attempt + 1) (by omega) (by omega)
            (fun j hj1 hj2 => hall j (by omega) hj2)]
        have hn : retries - 1 - attempt = (retries - 1 - (attempt + 1)) + 1 := by
          omega
        rw [hn, List.range'_succ, List.map_cons]
      · rw [if_neg hlast]
        have heq : attempt + 1 = retries := by omega
        have hz : retries - 1 - attempt = 0 := by omega
        rw [heq, hz]
        rfl
    | requestError msg =>
      simp only [makeRequestGo, hresp]
      by_cases hlast : attempt + 1 < retries
      · rw [if_pos hlast,
          ih (attempt + 1) (by omega) (by omega)
            (fun j hj1 hj2 => hall j (by omega) hj2)]
        have hn : retries - 1 - attempt = (retries - 1 - (attempt + 1)) + 1 := by
          omega
        rw [hn, List.range'_succ, List.map_cons]
      · rw [if_neg hlast]
        have heq : attempt + 1 = retries := by omega
        have hz : retries - 1 - attempt = 0 := by omega
        rw [heq, hz]
        rfl

theorem makeRequestGo_halt (responses : Nat → AttemptResult) (delay : Rat)
    (retries : Nat) (i : Nat) (hi : i < retries)
    (hstop : retryable (responses i) = false) :
    ∀ fuel attempt, fuel = retries - attempt → attempt ≤ i →
    (∀ j, attempt ≤ j → j < i → retryable (responses j) = true) →
    makeRequestGo responses delay retries fuel attempt =
      (haltResult (responses i), i + 1,
        (List.range' attempt (i - attempt)).map (fun j => delay * 2 ^ j)) := by
  intro fuel
  induction fuel with
  | zero => intro attempt hf hle _; omega
  | succ fuel ih =>
    intro attempt hf hle hall
    by_cases hcur : attempt = i
    · subst hcur
      have hz : attempt - attempt = 0 := by omega
      rw [hz]
      cases hresp : responses attempt with
      | success body => simp only [makeRequestGo, hresp, haltResult]; rfl
      | httpStatusError status =>
        have hs : status = 429 := by
          rw [hresp] at hstop
          simpa [retryable] using hstop
        simp only [makeRequestGo, hresp, if_pos hs, haltResult]
        rfl
      | requestError msg =>
        rw [hresp] at hstop
        simp [retryable] at hstop
    · have hltI : attempt < i := by omega
      have hr := hall attempt le_rfl hltI
      have hlast : attempt + 1 < retries := by omega
      have hn : i - attempt = (i - (attempt + 1)) + 1 := by omega
      cases hresp : responses attempt with
      | success body => rw [hresp] at hr; simp [retryable] at hr
      | httpStatusError status =>
        have hs : ¬status = 429 := by
          rw [hresp] at hr; simpa [retryable] using hr
        simp only [makeRequestGo, hresp, if_neg hs, if_pos hlast]
        rw [ih (attempt + 1) (by omega) (by omega)
            (fun j hj1 hj2 => hall j (by omega) hj2)]
        rw [hn, List.range'_succ, List.map_cons]
      | requestError msg =>
        simp only [makeRequestGo, hresp, if_pos hlast]
        rw [ih (attempt + 1) (by omega) (by omega)
            (fun j hj1 hj2 => hall j (by omega) hj2)]
        rw [hn, List.range'_succ, List.map_cons]

/-- C4: through `_make_request`, a 429 at attempt `i` (after `i` retryable
failures) stops the loop at once with `RateLimitError` after exactly `i + 1`
attempts; a success at attempt `i` likewise returns its body after `i + 1`
attempts; the backoff sleeps before each retry are `delay * 2 ^ attempt`;
and when every attempt fails retryably the loop consumes exactly `retries`
attempts and fails with `BlockchainAPIError`. -/
theorem C4_retry_policy (responses : Nat → AttemptResult) (delay : Rat)
    (retries : Nat) (i : Nat) :
    (i < retries → (∀ j, j < i → retryable (responses j) = true) →
      responses i = .httpStatusError 429 →
      make_request responses delay retries =
        (.error .rateLimitError, i + 1,
          (List.range' 0 i).map (fun j => delay * 2 ^ j))) ∧
    (∀ body, i < retries → (∀ j, j < i → retryable (responses j) = true) →
      responses i = .success body →
      make_request responses delay retries =
        (.ok body, i + 1, (List.range' 0 i).map (fun j => delay * 2 ^ j))) ∧
    ((∀ j, j < retries → retryable (responses j) = true) →
      make_request responses delay retries =
        (.error .blockchainAPIError, retries,
          (List.range' 0 (retries - 1)).map (fun j => delay * 2 ^ j))) := by
  refine ⟨?_, ?_, ?_⟩
  · intro hi hpre hresp
    have h := makeRequestGo_halt responses delay retries i hi
      (by rw [hresp]; simp [retryable]) retries 0 (by omega) (by omega)
      (fun j _ hj => hpre j hj)
    rw [make_request, h, hresp]
    rfl
  · intro body hi hpre hresp
    have h := makeRequestGo_halt responses delay retries i hi
      (by rw [hresp]; simp [retryable]) retries 0 (by omega) (by omega)
      (fun j _ hj => hpre j hj)
    rw [make_request, h, hresp]
    rfl
  · intro hall
    have h := makeRequestGo_exhaust responses delay retries retries 0
      (by omega) (by omega) (fun j _ hj => hall j hj)
    rw [make_request, h, Nat.sub_zero]

/-- Witness for C4: with a transport error on attempt 0 and a 429 on
attempt 1 (`wResponses`), three configured attempts and unit base delay,
the call fails with `RateLimitError` after exactly 2 attempts and a single
backoff sleep of 1·2⁰. -/
theorem C4_retry_policy_witness :
    make_request wResponses 1 3 = (.error .rateLimitError, 2, [1]) := by
  have h := (C4_retry_policy wResponses 1 3 1).1 (by omega)
    (by
      intro j hj
      have hj0 : j = 0 := by omega
      subst hj0
      decide)
    (by decide)
  rw [h]
  norm_num [show List.range' 0 1 = [0] from rfl]

/-! ## Theorems about rate limiting -/

theorem apply_rate_limit_events (limit : Int) (st : RateState)
    (now now2 : Rat) :
    (apply_rate_limit limit st now now2).1 = [ApiEvent.consumeBudget] ∨
    ∃ d, (apply_rate_limit limit st now now2).1 =
      [ApiEvent.sleep d, ApiEvent.consumeBudget] := by
  unfold apply_rate_limit
  dsimp only
  split_ifs <;> first | exact Or.inl rfl | exact Or.inr ⟨_, rfl⟩

theorem attemptEvents_no_budget (responses : Nat → AttemptResult)
    (delay : Rat) (retries : Nat) :
    ∀ fuel attempt,
      (attemptEvents responses delay retries fuel attempt).count
        ApiEvent.consumeBudget = 0 := by
  intro fuel
  induction fuel with
  | zero => intro attempt; rfl
  | succ fuel ih =>
    intro attempt
    simp only [attemptEvents]
    cases responses attempt with
    | success body => simp [List.count_cons]
    | httpStatusError status =>
      by_cases h429 : status = 429
      · simp [h429, List.count_cons]
      · by_cases hlast : attempt + 1 < retries
        · simp [h429, hlast, List.count_cons, ih]
        · simp [h429, hlast, List.count_cons]
    | requestError msg =>
      by_cases hlast : attempt + 1 < retries
      · simp [hlast, List.count_cons, ih]
      · simp [hlast, List.count_cons]

/-- C5 fails on the code: on the Alchemy backend, `get_eth_balance` issues
its HTTP request directly (its own `httpx` client, no `_apply_rate_limit`):
the trace's first event is the HTTP request with no budget consumption
before it, and the remaining budget is untouched. -/
theorem C5_counterexample :
    budgetBeforeFirstHttp
      (fetchEvents .get_balance .alchemy 60 ⟨60, 0⟩ 5 5
        (fun _ => .success "") 1 3).1 = false ∧
    (fetchEvents .get_balance .alchemy 60 ⟨60, 0⟩ 5 5
        (fun _ => .success "") 1 3).2.remaining = 60 :=
  ⟨rfl, rfl⟩

/-- C5 amended: on the Etherscan backend every fetch consumes exactly one
budget unit before its first HTTP request; on the Alchemy backend
`get_balance` performs one HTTP request without consuming budget and the
token/transaction fetches perform none at all; with a positive configured
budget the remaining counter never goes below zero; and an exhausted
budget (without a window reset) makes the call sleep for the remainder of
the window and then consume, rather than raise. -/
theorem C5_amended_rate_limiting (op : FetchOp) (limit : Int)
    (st : RateState) (now now2 : Rat) (responses : Nat → AttemptResult)
    (delay : Rat) (retries : Nat) :
    (budgetBeforeFirstHttp
        (fetchEvents op .etherscan limit st now now2 responses delay
          retries).1 = true ∧
      (fetchEvents op .etherscan limit st now now2 responses delay
          retries).1.count ApiEvent.consumeBudget = 1) ∧
    ((fetchEvents .get_balance .alchemy limit st now now2 responses delay
        retries).1 = [ApiEvent.httpRequest] ∧
      (fetchEvents .get_tokens .alchemy limit st now now2 responses delay
        retries).1 = [] ∧
      (fetchEvents .get_transactions .alchemy limit st now now2 responses
        delay retries).1 = []) ∧
    (1 ≤ limit → 0 ≤ (apply_rate_limit limit st now now2).2.remaining) ∧
    (¬now - st.last_request_time > 60 → st.remaining ≤ 0 →
      (apply_rate_limit limit st now now2).1 =
        [ApiEvent.sleep (max (60 - (now - st.last_request_time)) 0),
          ApiEvent.consumeBudget] ∧
      (apply_rate_limit limit st now now2).2 = ⟨limit - 1, now2⟩) := by
  have hsplit : (fetchEvents op .etherscan limit st now now2 responses delay
      retries).1 = (apply_rate_limit limit st now now2).1 ++
        attemptEvents responses delay retries retries 0 := rfl
  refine ⟨⟨?_, ?_⟩, ⟨rfl, rfl, rfl⟩, ?_, ?_⟩
  · rw [hsplit]
    rcases apply_rate_limit_events limit st now now2 with h | ⟨d, h⟩ <;>
      rw [h] <;> rfl
  · rw [hsplit, List.count_append,
      attemptEvents_no_budget responses delay retries retries 0]
    rcases apply_rate_limit_events limit st now now2 with h | ⟨d, h⟩ <;>
      rw [h] <;> simp [List.count_cons]
  · intro hlim
    unfold apply_rate_limit
    dsimp only
    split_ifs with h1 h2 <;> simp <;> omega
  · intro hnr hex
    unfold apply_rate_limit
    dsimp only
    rw [if_neg hnr, if_pos hex]
    exact ⟨rfl, rfl⟩

/-- Witness for C5 amended: an exhausted budget (0 left, 30 s into the
window) sleeps the remaining 30 s, then consumes from the reset budget,
leaving 59 of 60. -/
theorem C5_amended_rate_limiting_witness :
    (apply_rate_limit 60 ⟨0, 10⟩ 40 70).1 =
      [ApiEvent.sleep 30, ApiEvent.consumeBudget] ∧
    (apply_rate_limit 60 ⟨0, 10⟩ 40 70).2 = ⟨59, 70⟩ := by
  have h := (C5_amended_rate_limiting .get_balance 60 ⟨0, 10⟩ 40 70
    (fun _ => .success "") 1 3).2.2.2 (by norm_num) (by norm_num)
  refine ⟨h.1.trans ?_, h.2.trans ?_⟩
  · norm_num
  · norm_num

end EtherScope
